import Mathlib

/-!
Verification of the file-collection indexing and query component of the
`msumastro` repository (`triage_fits_files.py`): `fits_summary` and the
`ImageFileCollection` class with its `values`, `files_with_keys` and
`files_with_key_values` queries.

The embedding models:
  * a FITS header as an association list from keyword to string value
    (the `readHeader` collaborator returns it, or `none` for an `IOError`);
  * the Python `dict` used for the summary table as an association list with
    insertion-order update semantics (`dictGet` / `dictSet` / `dictAppend`);
  * `fits_summary` as the source's loop: initialise one empty column per
    keyword plus `file`, then for each readable file append the file name and
    each keyword's header value (empty string when the keyword is absent);
  * `ImageFileCollection` as a record of `_keywords`, `_files` and
    `_summary_info`, with the constructor, the `keywords` setter, `has_key`,
    `values`, `files_with_keys`, `files_with_key_values` and
    `_find_keywords_by_values` translated statement by statement.
-/

/-- A FITS header as returned by the header-reading collaborator:
an ordered mapping from keyword to string value. -/
abbrev Header := List (String × String)

/-- The external world a collection is built from and queried against:
the directory listing (result of `fits_files_in_directory`) and the
header reader (`pyfits.getheader`; `none` models an `IOError`). -/
structure Env where
  files : List String
  reader : String → Option Header

/-- Python `dict` lookup `d[k]` (as an `Option`; `none` models `KeyError`).
First binding wins, matching lookup in an insertion-ordered dict. -/
def dictGet {α : Type} (d : List (String × α)) (k : String) : Option α :=
  match d with
  | [] => none
  | (k', v) :: rest => if k' = k then some v else dictGet rest k

/-- Python `dict` assignment `d[k] = v`: overwrite in place if the key is
present, otherwise append the new binding. -/
def dictSet {α : Type} (d : List (String × α)) (k : String) (v : α) :
    List (String × α) :=
  match d with
  | [] => [(k, v)]
  | (k', v') :: rest =>
    if k' = k then (k', v) :: rest else (k', v') :: dictSet rest k v

/-- Python `d[k].append(v)` on a dict of lists: extend the column stored
under `k` by one element (no-op when the key is absent; in the translated
code the key is always present). -/
def dictAppend (d : List (String × List String)) (k : String) (v : String) :
    List (String × List String) :=
  match d with
  | [] => []
  | (k', col) :: rest =>
    (if k' = k then (k', col ++ [v]) else (k', col)) :: dictAppend rest k v

/-- `header[keyword]` with the `except KeyError: append('')` of
`fits_summary`: the header value, or the empty string when absent. -/
def headerVal (h : Header) (k : String) : String :=
  match dictGet h k with
  | some v => v
  | none => ""

/-- The value `fits_summary` records for file `f` under keyword `k`
(meaningful when `f` is readable; unreadable files are skipped). -/
def fileVal (env : Env) (f : String) (k : String) : String :=
  match env.reader f with
  | none => ""
  | some h => headerVal h k

/-- The empty summary dict of `fits_summary`: `summary['file'] = []` followed
by `summary[keyword] = []` for each keyword. -/
def summaryInit (keywords : List String) : List (String × List String) :=
  keywords.foldl (fun d k => dictSet d k []) (dictSet [] "file" [])

/-- One iteration of `fits_summary`'s file loop: skip the file if the header
read fails, otherwise append the file name to the `file` column and each
keyword's value (or `""`) to that keyword's column. -/
def summaryAddFile (env : Env) (keywords : List String)
    (d : List (String × List String)) (afile : String) :
    List (String × List String) :=
  match env.reader afile with
  | none => d
  | some header =>
    keywords.foldl (fun d k => dictAppend d k (headerVal header k))
      (dictAppend d "file" afile)

/-- `fits_summary(dir, file_list, keywords)`: when `file_list` is empty the
directory is re-listed (`env.files`), then the summary dict is built by the
file loop. -/
def fits_summary (env : Env) (file_list : List String)
    (keywords : List String) : List (String × List String) :=
  let fl := if file_list = [] then env.files else file_list
  fl.foldl (summaryAddFile env keywords) (summaryInit keywords)

/-- The state of an `ImageFileCollection`: `_keywords`, `_files`,
`_summary_info`. -/
structure ImageFileCollection where
  keywords : List String
  files : List String
  summary_info : List (String × List String)
deriving DecidableEq

/-- `ImageFileCollection.__init__`: list the directory, and eagerly build the
summary when the keyword list is non-empty (else leave it the empty dict). -/
def mkCollection (env : Env) (keywords : List String) : ImageFileCollection :=
  let files := env.files
  { keywords := keywords
    files := files
    summary_info :=
      if keywords = [] then [] else fits_summary env files keywords }

/-- The `keywords` property setter: `self._keywords = keywords` and nothing
else (the summary is not touched). -/
def setKeywords (c : ImageFileCollection) (keywords : List String) :
    ImageFileCollection :=
  { c with keywords := keywords }

/-- `has_key`: linear scan of `self.keywords` for an equal name. -/
def has_key (c : ImageFileCollection) (keyword : String) : Bool :=
  c.keywords.any (fun key => keyword = key)

/-- Python `list(set(xs))` modelled deterministically: the distinct values. -/
def distinctVals (xs : List String) : List String := xs.dedup

/-- `ImageFileCollection.values(keyword, unique)`: raise `ValueError` when
`has_key` fails, otherwise return the cached column (its distinct values when
`unique`); a column missing from the summary dict raises `KeyError`. -/
def values (c : ImageFileCollection) (keyword : String) (unique : Bool) :
    Except String (List String) :=
  if ¬ has_key c keyword then
    Except.error ("keyword " ++ keyword ++ " is not in the current summary")
  else
    match dictGet c.summary_info keyword with
    | none => Except.error ("KeyError: " ++ keyword)
    | some col => Except.ok (if unique then distinctVals col else col)

/-- Python `str.lower()` (character-wise ASCII lowering). -/
def lowerStr (s : String) : String := ⟨s.data.map Char.toLower⟩

/-- The row-index set matching one `(keyword, value)` pair against a column:
`'*'` keeps the rows whose entry is non-empty, anything else the rows whose
entry equals the value case-insensitively (the source's explicit loop). -/
def matchSet (col : List String) (value : String) : List Nat :=
  if value = "*" then
    (List.range col.length).filter (fun i => decide (col.getD i "" ≠ ""))
  else
    (List.range col.length).filter
      (fun i => decide (lowerStr (col.getD i "") = lowerStr value))

/-- The pair loop of `_find_keywords_by_values`: for each `(key, value)`
pair look the column up in `use_info` (`KeyError` when absent) and intersect
`have_all` with the matching row set. -/
def findLoop (use_info : List (String × List String))
    (pairs : List (String × String)) (have_all : List Nat) :
    Except String (List Nat) :=
  match pairs with
  | [] => Except.ok have_all
  | (key, value) :: rest =>
    match dictGet use_info key with
    | none => Except.error ("KeyError: " ++ key)
    | some col =>
      findLoop use_info rest
        (have_all.filter (fun i => decide (i ∈ matchSet col value)))

/-- The `values` argument of `_find_keywords_by_values`: either the string
`'*'` (from `files_with_keys`) or a list of values. -/
inductive ValuesArg where
  | star
  | vals (vs : List String)
deriving DecidableEq

/-- The `use_info` table of `_find_keywords_by_values`: the cached summary
when the requested keywords intersect `self.keywords`, otherwise a fresh
re-scan of `self.files` for exactly the requested keywords. -/
def use_info_of (env : Env) (c : ImageFileCollection)
    (keywords : List String) : List (String × List String) :=
  if keywords.any (fun k => decide (k ∈ c.keywords)) then c.summary_info
  else fits_summary env c.files keywords

/-- `_find_keywords_by_values` with the collection state threaded through:
broadcast `'*'`, choose `use_info` (cached summary or fresh re-scan), run
the pair loop starting from all indices of `self._files`, and map the
surviving indices back through `self._files`. The method assigns no
attribute, so the returned state is the input state. -/
def find_keywords_by_values_run (env : Env) (c : ImageFileCollection)
    (keywords : List String) (values : ValuesArg) :
    Except String (List String) × ImageFileCollection :=
  let use_values : List String :=
    match values with
    | .star => List.replicate keywords.length "*"
    | .vals vs => vs
  let use_info : List (String × List String) := use_info_of env c keywords
  match findLoop use_info (keywords.zip use_values)
      (List.range c.files.length) with
  | Except.error e => (Except.error e, c)
  | Except.ok have_all =>
    (Except.ok (have_all.map (fun i => c.files.getD i "")), c)

/-- The result of `_find_keywords_by_values`. -/
def find_keywords_by_values (env : Env) (c : ImageFileCollection)
    (keywords : List String) (values : ValuesArg) :
    Except String (List String) :=
  (find_keywords_by_values_run env c keywords values).1

/-- `files_with_keys(keywords)`: default to `self.keywords` when the argument
is empty, then query with the wildcard value. -/
def files_with_keys (env : Env) (c : ImageFileCollection)
    (keywords : List String) : Except String (List String) :=
  let use_keys := if keywords = [] then c.keywords else keywords
  find_keywords_by_values env c use_keys ValuesArg.star

/-- `files_with_key_values(keywords, values)`: `ValueError` on a length
mismatch, else delegate to `_find_keywords_by_values`. -/
def files_with_key_values (env : Env) (c : ImageFileCollection)
    (keywords : List String) (vals : List String) :
    Except String (List String) :=
  if keywords.length ≠ vals.length then
    Except.error "keywords and values must have same length."
  else find_keywords_by_values env c keywords (ValuesArg.vals vals)

/-- Whether row `i` of table `t` matches every `(keyword, value)` pair, read
off the table itself (spec step 3: wildcard means a non-empty entry, a
concrete value means case-insensitive equality). -/
def rowMatches (t : List (String × List String))
    (pairs : List (String × String)) (i : Nat) : Bool :=
  pairs.all (fun p =>
    match dictGet t p.1 with
    | none => false
    | some col =>
      if p.2 = "*" then decide (col.getD i "" ≠ "")
      else decide (lowerStr (col.getD i "") = lowerStr p.2))

/-- Modelled from the spec (steps 3-5 of the query evaluation policy): the
files obtained by filtering the rows of the evaluation table itself and
mapping the surviving row indices through that table's own `file` column. -/
def matchingFilesSpec (t : List (String × List String))
    (pairs : List (String × String)) : List String :=
  let fileCol := (dictGet t "file").getD []
  ((List.range fileCol.length).filter (rowMatches t pairs)).map
    (fun i => fileCol.getD i "")

/-- Whether a file `f` satisfies one `(keyword, value)` pair when the
column for `keyword` holds the header values of the listed files: the
wildcard demands a non-empty value, anything else a case-insensitive
match. -/
def pairMatch (env : Env) (f : String) (p : String × String) : Bool :=
  if p.2 = "*" then decide (fileVal env f p.1 ≠ "")
  else decide (lowerStr (fileVal env f p.1) = lowerStr p.2)

-- Concrete environments used by counterexamples and witnesses.

/-- One readable file whose header has two keywords. -/
def env1 : Env :=
  { files := ["a.fits"]
    reader := fun f =>
      if f = "a.fits" then some [("KWA", "1"), ("KWB", "2")] else none }

/-- Collection over `env1` tracking only `KWA`. -/
def c1 : ImageFileCollection := mkCollection env1 ["KWA"]

/-- Two listed files, the first unreadable, the second with `KWB = x`. -/
def env2 : Env :=
  { files := ["a.fits", "b.fits"]
    reader := fun f =>
      if f = "b.fits" then some [("KWB", "x")] else none }

/-- Collection over `env2` tracking nothing. -/
def c2 : ImageFileCollection := mkCollection env2 []

/-- Collection over `env2` tracking `KWB`. -/
def c2b : ImageFileCollection := mkCollection env2 ["KWB"]

-- Lemmas about the dict operations.

theorem dictGet_dictSet {α : Type} (d : List (String × α)) (k k' : String)
    (v : α) :
    dictGet (dictSet d k v) k' =
      if k = k' then some v else dictGet d k' := by
  induction d with
  | nil => simp [dictSet, dictGet]
  | cons p rest ih =>
    obtain ⟨a, w⟩ := p
    simp only [dictSet]
    by_cases hak : a = k
    · subst hak
      rw [if_pos rfl]
      simp only [dictGet]
      by_cases hk' : a = k' <;> simp [hk']
    · rw [if_neg hak]
      simp only [dictGet, ih]
      by_cases hk' : a = k'
      · subst hk'
        have hka : ¬ k = a := fun h => hak h.symm
        simp [hka]
      · simp [hk']

theorem dictGet_dictAppend (d : List (String × List String)) (k k' : String)
    (v : String) :
    dictGet (dictAppend d k v) k' =
      if k = k' then (dictGet d k').map (fun c => c ++ [v])
      else dictGet d k' := by
  induction d with
  | nil =>
    simp only [dictAppend, dictGet]
    by_cases h : k = k' <;> simp [h]
  | cons p rest ih =>
    obtain ⟨a, w⟩ := p
    simp only [dictAppend]
    by_cases hak : a = k
    · subst hak
      rw [if_pos rfl]
      simp only [dictGet, ih]
      by_cases hk' : a = k'
      · subst hk'
        simp
      · simp [hk']
    · rw [if_neg hak]
      simp only [dictGet, ih]
      by_cases hk' : a = k'
      · subst hk'
        have hka : ¬ k = a := fun h => hak h.symm
        simp [hka]
      · simp [hk']

theorem setFold_get (K : List String) (d0 : List (String × List String))
    (k : String) :
    dictGet (K.foldl (fun d x => dictSet d x []) d0) k =
      if k ∈ K then some [] else dictGet d0 k := by
  induction K generalizing d0 with
  | nil => simp
  | cons a rest ih =>
    simp only [List.foldl_cons, ih, dictGet_dictSet, List.mem_cons]
    by_cases hmem : k ∈ rest
    · simp [hmem]
    · by_cases hak : a = k
      · simp [hak, hmem]
      · have hka : ¬ k = a := fun h => hak h.symm
        simp [hmem, hak, hka]

theorem summaryInit_get (K : List String) (k : String) :
    dictGet (summaryInit K) k =
      if k ∈ K ∨ k = "file" then some [] else none := by
  simp only [summaryInit, setFold_get, dictGet_dictSet, dictGet]
  by_cases hmem : k ∈ K
  · simp [hmem]
  · by_cases hf : k = "file"
    · simp [hmem, hf]
    · have hfk : ¬ "file" = k := fun h => hf h.symm
      simp [hmem, hf, hfk]

theorem appendFold_get_notMem (K : List String) (g : String → String)
    (d0 : List (String × List String)) (k : String) (hk : k ∉ K) :
    dictGet (K.foldl (fun d x => dictAppend d x (g x)) d0) k =
      dictGet d0 k := by
  induction K generalizing d0 with
  | nil => simp
  | cons a rest ih =>
    simp only [List.mem_cons, not_or] at hk
    have hak : ¬ a = k := fun h => hk.1 h.symm
    rw [List.foldl_cons, ih _ hk.2, dictGet_dictAppend, if_neg hak]

theorem appendFold_get_mem (K : List String) (g : String → String)
    (d0 : List (String × List String)) (k : String) (hnd : K.Nodup)
    (hk : k ∈ K) :
    dictGet (K.foldl (fun d x => dictAppend d x (g x)) d0) k =
      (dictGet d0 k).map (fun c => c ++ [g k]) := by
  induction K generalizing d0 with
  | nil => simp at hk
  | cons a rest ih =>
    simp only [List.nodup_cons] at hnd
    rcases List.mem_cons.mp hk with hka | hkr
    · subst hka
      rw [List.foldl_cons, appendFold_get_notMem rest g _ k hnd.1,
        dictGet_dictAppend, if_pos rfl]
    · have hak : a ≠ k := fun h => hnd.1 (h ▸ hkr)
      rw [List.foldl_cons, ih _ hnd.2 hkr, dictGet_dictAppend, if_neg hak]

-- Characterisation of the summary table built by the file loop.

theorem filesFold_get_file (env : Env) (K : List String) (fl : List String)
    (d : List (String × List String)) (hf : "file" ∉ K)
    (hr : ∀ f ∈ fl, (env.reader f).isSome) :
    dictGet (fl.foldl (summaryAddFile env K) d) "file" =
      (dictGet d "file").map (fun c => c ++ fl) := by
  induction fl generalizing d with
  | nil => cases hdf : dictGet d "file" <;> simp [hdf]
  | cons f rest ih =>
    have hf' : (env.reader f).isSome := hr f (List.mem_cons_self f rest)
    obtain ⟨h, hh⟩ := Option.isSome_iff_exists.mp hf'
    rw [List.foldl_cons]
    have hstep : summaryAddFile env K d f =
        K.foldl (fun d k => dictAppend d k (headerVal h k))
          (dictAppend d "file" f) := by
      simp [summaryAddFile, hh]
    rw [hstep, ih _ (fun g hg => hr g (List.mem_cons_of_mem f hg)),
      appendFold_get_notMem K _ _ _ hf, dictGet_dictAppend, if_pos rfl]
    cases dictGet d "file" <;> simp

theorem filesFold_get_col (env : Env) (K : List String) (fl : List String)
    (d : List (String × List String)) (k : String) (hnd : K.Nodup)
    (hf : "file" ∉ K) (hk : k ∈ K)
    (hr : ∀ f ∈ fl, (env.reader f).isSome) :
    dictGet (fl.foldl (summaryAddFile env K) d) k =
      (dictGet d k).map
        (fun c => c ++ fl.map (fun f => fileVal env f k)) := by
  induction fl generalizing d with
  | nil => cases hdf : dictGet d k <;> simp [hdf]
  | cons f rest ih =>
    have hf' : (env.reader f).isSome := hr f (List.mem_cons_self f rest)
    obtain ⟨h, hh⟩ := Option.isSome_iff_exists.mp hf'
    rw [List.foldl_cons]
    have hstep : summaryAddFile env K d f =
        K.foldl (fun d k => dictAppend d k (headerVal h k))
          (dictAppend d "file" f) := by
      simp [summaryAddFile, hh]
    have hkf : ¬ "file" = k := fun e => hf (e ▸ hk)
    rw [hstep, ih _ (fun g hg => hr g (List.mem_cons_of_mem f hg)),
      appendFold_get_mem K _ _ k hnd hk, dictGet_dictAppend, if_neg hkf]
    have hval : fileVal env f k = headerVal h k := by simp [fileVal, hh]
    cases dictGet d k <;> simp [hval]

theorem filesFold_get_none (env : Env) (K : List String) (fl : List String)
    (d : List (String × List String)) (k : String) (hk : k ∉ K)
    (hkf : k ≠ "file") :
    dictGet (fl.foldl (summaryAddFile env K) d) k = dictGet d k := by
  induction fl generalizing d with
  | nil => rfl
  | cons f rest ih =>
    rw [List.foldl_cons, ih]
    cases hh : env.reader f with
    | none => simp [summaryAddFile, hh]
    | some h =>
      simp only [summaryAddFile, hh]
      rw [appendFold_get_notMem K _ _ _ hk, dictGet_dictAppend,
        if_neg (fun e => hkf e.symm)]

theorem fits_summary_files_eq (env : Env) (K : List String) :
    fits_summary env env.files K =
      env.files.foldl (summaryAddFile env K) (summaryInit K) := by
  simp only [fits_summary]
  by_cases h : env.files = [] <;> simp [h]

theorem fits_summary_get_file (env : Env) (K : List String)
    (hf : "file" ∉ K) (hr : ∀ f ∈ env.files, (env.reader f).isSome) :
    dictGet (fits_summary env env.files K) "file" = some env.files := by
  rw [fits_summary_files_eq, filesFold_get_file env K env.files _ hf hr,
    summaryInit_get]
  simp

theorem fits_summary_get_col (env : Env) (K : List String) (k : String)
    (hnd : K.Nodup) (hf : "file" ∉ K) (hk : k ∈ K)
    (hr : ∀ f ∈ env.files, (env.reader f).isSome) :
    dictGet (fits_summary env env.files K) k =
      some (env.files.map (fun f => fileVal env f k)) := by
  rw [fits_summary_files_eq,
    filesFold_get_col env K env.files _ k hnd hf hk hr, summaryInit_get]
  simp [hk]

theorem fits_summary_get_none (env : Env) (fl K : List String) (k : String)
    (hk : k ∉ K) (hkf : k ≠ "file") :
    dictGet (fits_summary env fl K) k = none := by
  simp only [fits_summary]
  rw [filesFold_get_none env K _ _ k hk hkf, summaryInit_get]
  simp [hk, hkf]

-- The pair loop and the index bookkeeping.

theorem mem_matchSet (col : List String) (value : String) (i : Nat) :
    i ∈ matchSet col value ↔
      i < col.length ∧
        (if value = "*" then col.getD i "" ≠ ""
         else lowerStr (col.getD i "") = lowerStr value) := by
  unfold matchSet
  by_cases hv : value = "*" <;>
    simp [hv, List.mem_filter, List.mem_range]

theorem findLoop_ok (t : List (String × List String))
    (pairs : List (String × String)) (acc : List Nat)
    (h : ∀ p ∈ pairs, (dictGet t p.1).isSome) :
    findLoop t pairs acc =
      Except.ok (acc.filter (fun i =>
        pairs.all (fun p =>
          decide (i ∈ matchSet ((dictGet t p.1).getD []) p.2)))) := by
  induction pairs generalizing acc with
  | nil => simp [findLoop]
  | cons p rest ih =>
    obtain ⟨key, value⟩ := p
    have hk : (dictGet t key).isSome := h _ (List.mem_cons_self _ _)
    obtain ⟨col, hcol⟩ := Option.isSome_iff_exists.mp hk
    simp only [findLoop, hcol]
    rw [ih _ (fun q hq => h q (List.mem_cons_of_mem _ hq))]
    congr 1
    rw [List.filter_filter]
    apply List.filter_congr
    intro i _
    simp [hcol, List.all_cons, Bool.and_comm]

theorem all_congr' {α : Type} (l : List α) (f g : α → Bool)
    (h : ∀ x ∈ l, f x = g x) : l.all f = l.all g := by
  induction l with
  | nil => rfl
  | cons a t ih =>
    rw [List.all_cons, List.all_cons, h a (List.mem_cons_self a t),
      ih (fun x hx => h x (List.mem_cons_of_mem a hx))]

theorem all_map' {α β : Type} (l : List α) (f : α → β) (g : β → Bool) :
    (l.map f).all g = l.all (fun x => g (f x)) := by
  induction l with
  | nil => rfl
  | cons a t ih => rw [List.map_cons, List.all_cons, List.all_cons, ih]

theorem range_filter_map_getD (l : List String) (p : String → Bool) :
    ((List.range l.length).filter (fun i => p (l.getD i ""))).map
      (fun i => l.getD i "") = l.filter p := by
  induction l with
  | nil => simp
  | cons a t ih =>
    rw [List.length_cons, List.range_succ_eq_map, List.filter_cons,
      List.filter_map]
    by_cases hpa : p a <;>
      simp_all [Function.comp_def, List.filter_cons, List.map_map]

theorem zip_replicate_star (l : List String) :
    l.zip (List.replicate l.length "*") =
      l.map (fun k => (k, "*")) := by
  induction l with
  | nil => rfl
  | cons a t ih => simp [List.replicate_succ, ih]

-- Evaluation of a query whose table columns align with the file list.

theorem matchSet_decide_eq_pairMatch (env : Env)
    (t : List (String × List String)) (files : List String)
    (p : String × String) (i : Nat) (hi : i < files.length)
    (hcol : dictGet t p.1 =
      some (files.map (fun f => fileVal env f p.1))) :
    decide (i ∈ matchSet ((dictGet t p.1).getD []) p.2) =
      pairMatch env (files.getD i "") p := by
  rw [hcol]
  have hlen : (files.map (fun f => fileVal env f p.1)).length =
      files.length := List.length_map _ _
  have hget : (files.map (fun f => fileVal env f p.1)).getD i "" =
      fileVal env (files.getD i "") p.1 := by
    rw [List.getD_eq_getElem _ _ (by rw [hlen]; exact hi),
      List.getD_eq_getElem _ _ hi, List.getElem_map]
  by_cases hv : p.2 = "*"
  · simp only [pairMatch, if_pos hv, Option.getD_some]
    rw [decide_eq_decide]
    rw [mem_matchSet, if_pos hv, hget, hlen]
    exact and_iff_right hi
  · simp only [pairMatch, if_neg hv, Option.getD_some]
    rw [decide_eq_decide]
    rw [mem_matchSet, if_neg hv, hget, hlen]
    exact and_iff_right hi

theorem rowMatches_eq_pairMatch (env : Env)
    (t : List (String × List String)) (files : List String)
    (pairs : List (String × String)) (i : Nat) (hi : i < files.length)
    (hcols : ∀ p ∈ pairs, dictGet t p.1 =
      some (files.map (fun f => fileVal env f p.1))) :
    rowMatches t pairs i =
      pairs.all (fun p => pairMatch env (files.getD i "") p) := by
  unfold rowMatches
  apply all_congr'
  intro p hp
  obtain ⟨pk, pv⟩ := p
  rw [hcols _ hp]
  have hget : (files.map (fun f => fileVal env f pk)).getD i "" =
      fileVal env (files.getD i "") pk := by
    rw [List.getD_eq_getElem _ _ (by rw [List.length_map]; exact hi),
      List.getD_eq_getElem _ _ hi, List.getElem_map]
  by_cases hv : pv = "*"
  · subst hv
    simp only [pairMatch, if_pos rfl]
    rw [hget]
  · simp only [pairMatch, if_neg hv]
    rw [hget]

theorem find_vals_ok (env : Env) (c : ImageFileCollection)
    (keywords uvs : List String) (X : List Nat)
    (h : findLoop (use_info_of env c keywords) (keywords.zip uvs)
      (List.range c.files.length) = Except.ok X) :
    find_keywords_by_values env c keywords (ValuesArg.vals uvs) =
      Except.ok (X.map (fun i => c.files.getD i "")) := by
  unfold find_keywords_by_values find_keywords_by_values_run
  simp only [h]

theorem find_vals_error (env : Env) (c : ImageFileCollection)
    (keywords uvs : List String) (e : String)
    (h : findLoop (use_info_of env c keywords) (keywords.zip uvs)
      (List.range c.files.length) = Except.error e) :
    find_keywords_by_values env c keywords (ValuesArg.vals uvs) =
      Except.error e := by
  unfold find_keywords_by_values find_keywords_by_values_run
  simp only [h]

theorem find_star_ok (env : Env) (c : ImageFileCollection)
    (keywords : List String) (X : List Nat)
    (h : findLoop (use_info_of env c keywords)
      (keywords.zip (List.replicate keywords.length "*"))
      (List.range c.files.length) = Except.ok X) :
    find_keywords_by_values env c keywords ValuesArg.star =
      Except.ok (X.map (fun i => c.files.getD i "")) := by
  unfold find_keywords_by_values find_keywords_by_values_run
  simp only [h]

theorem find_eval (env : Env) (c : ImageFileCollection)
    (keywords : List String) (uvs : List String)
    (hcols : ∀ p ∈ keywords.zip uvs,
      dictGet (use_info_of env c keywords) p.1 =
        some (c.files.map (fun f => fileVal env f p.1))) :
    find_keywords_by_values env c keywords (ValuesArg.vals uvs) =
      Except.ok (c.files.filter
        (fun f => (keywords.zip uvs).all (fun p => pairMatch env f p))) := by
  rw [find_vals_ok env c keywords uvs _
    (findLoop_ok _ _ _
      (fun p hp => by rw [hcols p hp]; exact Option.isSome_some))]
  rw [← range_filter_map_getD c.files
    (fun f => (keywords.zip uvs).all (fun p => pairMatch env f p))]
  congr 1
  congr 1
  apply List.filter_congr
  intro i hi
  rw [List.mem_range] at hi
  apply all_congr'
  intro p hp
  exact matchSet_decide_eq_pairMatch env _ c.files p i hi (hcols p hp)

-- Case-insensitivity of value matching.

theorem char_toLower_star (c : Char) (h : c.toLower = '*') : c = '*' := by
  unfold Char.toLower at h
  simp only [] at h
  by_cases hcond : c.toNat ≥ 65 ∧ c.toNat ≤ 90
  · rw [if_pos hcond] at h
    exfalso
    obtain ⟨h1, h2⟩ := hcond
    interval_cases hn : c.toNat <;> exact absurd h (by decide)
  · rwa [if_neg hcond] at h

theorem lowerStr_star : lowerStr "*" = "*" := by decide

theorem lowerStr_eq_star (s : String) (h : lowerStr s = "*") : s = "*" := by
  obtain ⟨data⟩ := s
  have hd : data.map Char.toLower = ['*'] := congrArg String.data h
  cases data with
  | nil => simp at hd
  | cons c rest =>
    simp only [List.map_cons, List.cons.injEq] at hd
    obtain ⟨hc, hrest⟩ := hd
    have hrest' : rest = [] := by
      cases rest with
      | nil => rfl
      | cons d t => simp at hrest
    subst hrest'
    have hc' : c = '*' := char_toLower_star c hc
    subst hc'
    rfl

theorem matchSet_lower_congr (col : List String) (a b : String)
    (h : lowerStr a = lowerStr b) :
    matchSet col a = matchSet col b := by
  by_cases ha : a = "*"
  · subst ha
    have hb : b = "*" := lowerStr_eq_star b (by rw [← h, lowerStr_star])
    rw [hb]
  · by_cases hb : b = "*"
    · subst hb
      exact absurd (lowerStr_eq_star a (by rw [h, lowerStr_star])) ha
    · unfold matchSet
      rw [if_neg ha, if_neg hb]
      simp only [h]

theorem findLoop_cons_none (t : List (String × List String))
    (key value : String) (rest : List (String × String)) (acc : List Nat)
    (h : dictGet t key = none) :
    findLoop t ((key, value) :: rest) acc =
      Except.error ("KeyError: " ++ key) := by
  have hstep : findLoop t ((key, value) :: rest) acc =
      match dictGet t key with
      | none => Except.error ("KeyError: " ++ key)
      | some col =>
        findLoop t rest
          (acc.filter (fun i => decide (i ∈ matchSet col value))) := rfl
  rw [hstep, h]

theorem findLoop_cons_some (t : List (String × List String))
    (key value : String) (col : List String)
    (rest : List (String × String)) (acc : List Nat)
    (h : dictGet t key = some col) :
    findLoop t ((key, value) :: rest) acc =
      findLoop t rest
        (acc.filter (fun i => decide (i ∈ matchSet col value))) := by
  have hstep : findLoop t ((key, value) :: rest) acc =
      match dictGet t key with
      | none => Except.error ("KeyError: " ++ key)
      | some c =>
        findLoop t rest
          (acc.filter (fun i => decide (i ∈ matchSet c value))) := rfl
  rw [hstep, h]

theorem findLoop_lower_congr (t : List (String × List String))
    (ks v1 v2 : List String) (acc : List Nat)
    (h : v1.map lowerStr = v2.map lowerStr) :
    findLoop t (ks.zip v1) acc = findLoop t (ks.zip v2) acc := by
  induction ks generalizing v1 v2 acc with
  | nil => rfl
  | cons k kt ih =>
    cases v1 with
    | nil =>
      cases v2 with
      | nil => rfl
      | cons b v2t => simp at h
    | cons a v1t =>
      cases v2 with
      | nil => simp at h
      | cons b v2t =>
        simp only [List.map_cons, List.cons.injEq] at h
        rw [List.zip_cons_cons, List.zip_cons_cons]
        cases hdg : dictGet t k with
        | none =>
          rw [findLoop_cons_none _ _ _ _ _ hdg,
            findLoop_cons_none _ _ _ _ _ hdg]
        | some col =>
          rw [findLoop_cons_some _ _ _ _ _ _ hdg,
            findLoop_cons_some _ _ _ _ _ _ hdg,
            matchSet_lower_congr col a b h.1]
          exact ih v1t v2t _ h.2

-- Simple facts about the constructed collection.

theorem mkCollection_keywords (env : Env) (K : List String) :
    (mkCollection env K).keywords = K := rfl

theorem mkCollection_files (env : Env) (K : List String) :
    (mkCollection env K).files = env.files := rfl

theorem mkCollection_summary (env : Env) (K : List String) (h : K ≠ []) :
    (mkCollection env K).summary_info = fits_summary env env.files K := by
  simp [mkCollection, h]

theorem range_map_getD (l : List String) :
    (List.range l.length).map (fun i => l.getD i "") = l := by
  have h := range_filter_map_getD l (fun _ => true)
  simpa using h

-- Which table the query evaluates against.

theorem use_info_cached (env : Env) (K ks : List String)
    (hb : ks.any (fun k => decide (k ∈ K)) = true) :
    use_info_of env (mkCollection env K) ks =
      fits_summary env env.files K := by
  have hKne : K ≠ [] := by
    intro hnil
    subst hnil
    simp at hb
  unfold use_info_of
  rw [mkCollection_keywords, hb]
  simp [mkCollection_summary env K hKne]

theorem use_info_rescan (env : Env) (K ks : List String)
    (hb : ks.any (fun k => decide (k ∈ K)) = false) :
    use_info_of env (mkCollection env K) ks =
      fits_summary env env.files ks := by
  unfold use_info_of
  rw [mkCollection_keywords, hb]
  simp [mkCollection_files]

theorem hcols_of (env : Env) (K ks : List String) (hndK : K.Nodup)
    (hfK : "file" ∉ K) (hndk : ks.Nodup) (hfk : "file" ∉ ks)
    (hr : ∀ f ∈ env.files, (env.reader f).isSome)
    (hsub : (∀ k ∈ ks, k ∈ K) ∨ (∀ k ∈ ks, k ∉ K)) :
    ∀ k ∈ ks, dictGet (use_info_of env (mkCollection env K) ks) k =
      some (env.files.map (fun f => fileVal env f k)) := by
  intro k hk
  cases hb : ks.any (fun k => decide (k ∈ K)) with
  | true =>
    obtain ⟨k0, hk0, hk0K⟩ := List.any_eq_true.mp hb
    have hk0K' : k0 ∈ K := of_decide_eq_true hk0K
    have hleft : ∀ x ∈ ks, x ∈ K :=
      hsub.resolve_right (fun hrt => hrt k0 hk0 hk0K')
    rw [use_info_cached env K ks hb,
      fits_summary_get_col env K k hndK hfK (hleft k hk) hr]
  | false =>
    rw [use_info_rescan env K ks hb,
      fits_summary_get_col env ks k hndk hfk hk hr]

-- Claim theorems.

/-- C5: value comparison in `files_with_key_values` is case-insensitive:
for every keyword list and every pair of value lists that are equal up to
letter case, the two calls return the same result. -/
theorem C5_case_insensitive (env : Env) (c : ImageFileCollection)
    (keywords v1 v2 : List String)
    (h : v1.map lowerStr = v2.map lowerStr) :
    files_with_key_values env c keywords v1 =
      files_with_key_values env c keywords v2 := by
  have hlen : v1.length = v2.length := by
    have h2 := congrArg List.length h
    simpa using h2
  unfold files_with_key_values
  by_cases hl : keywords.length ≠ v1.length
  · have hl2 : keywords.length ≠ v2.length := by
      rw [← hlen]
      exact hl
    rw [if_pos hl, if_pos hl2]
  · have hl2 : ¬ keywords.length ≠ v2.length := by
      rw [← hlen]
      exact hl
    rw [if_neg hl, if_neg hl2]
    rcases hfl : findLoop (use_info_of env c keywords) (keywords.zip v1)
        (List.range c.files.length) with e | X
    · rw [find_vals_error env c keywords v1 e hfl,
        find_vals_error env c keywords v2 e
          (by rw [← findLoop_lower_congr _ keywords v1 v2 _ h]; exact hfl)]
    · rw [find_vals_ok env c keywords v1 X hfl,
        find_vals_ok env c keywords v2 X
          (by rw [← findLoop_lower_congr _ keywords v1 v2 _ h]; exact hfl)]

/-- Witness for C5 at a concrete input: `Light` versus `LIGHT`. -/
theorem C5_case_insensitive_witness :
    (["Light"].map lowerStr = ["LIGHT"].map lowerStr) ∧
      files_with_key_values env1 c1 ["KWA"] ["Light"] =
        files_with_key_values env1 c1 ["KWA"] ["LIGHT"] :=
  ⟨by decide,
    C5_case_insensitive env1 c1 ["KWA"] ["Light"] ["LIGHT"] (by decide)⟩

/-- C7: a query whose keyword and value lists have different lengths fails
with the length-mismatch error, for every collection and environment. -/
theorem C7_length_mismatch (env : Env) (c : ImageFileCollection)
    (keywords vals : List String) (h : keywords.length ≠ vals.length) :
    files_with_key_values env c keywords vals =
      Except.error "keywords and values must have same length." := by
  unfold files_with_key_values
  rw [if_pos h]

/-- Witness for C7 at the concrete input from the spec:
`filesWithKeyValues(["A","B"], ["x"])`. -/
theorem C7_length_mismatch_witness :
    (["A", "B"].length ≠ ["x"].length) ∧
      files_with_key_values env1 c1 ["A", "B"] ["x"] =
        Except.error "keywords and values must have same length." :=
  ⟨by decide, C7_length_mismatch env1 c1 ["A", "B"] ["x"] (by decide)⟩

/-- C10: a query with both the keyword list and the value list empty applies
no filtering and returns every file of the collection, for every collection
(whatever its tracked keywords) and environment. -/
theorem C10_empty_query (env : Env) (c : ImageFileCollection) :
    files_with_key_values env c [] [] = Except.ok c.files := by
  unfold files_with_key_values
  rw [if_neg (by simp)]
  rw [find_vals_ok env c [] [] (List.range c.files.length) rfl,
    range_map_getD]

-- Wildcard queries and accessor equations.

theorem find_eval_star (env : Env) (c : ImageFileCollection)
    (keywords : List String)
    (hcols : ∀ k ∈ keywords,
      dictGet (use_info_of env c keywords) k =
        some (c.files.map (fun f => fileVal env f k))) :
    find_keywords_by_values env c keywords ValuesArg.star =
      Except.ok (c.files.filter (fun f =>
        keywords.all (fun k => decide (fileVal env f k ≠ "")))) := by
  have hz : keywords.zip (List.replicate keywords.length "*") =
      keywords.map (fun k => (k, "*")) := zip_replicate_star keywords
  have hcols' : ∀ p ∈ keywords.map (fun k => (k, "*")),
      dictGet (use_info_of env c keywords) p.1 =
        some (c.files.map (fun f => fileVal env f p.1)) := by
    intro p hp
    obtain ⟨k, hk, rfl⟩ := List.mem_map.mp hp
    exact hcols k hk
  have hfl : findLoop (use_info_of env c keywords)
      (keywords.zip (List.replicate keywords.length "*"))
      (List.range c.files.length) =
      Except.ok ((List.range c.files.length).filter (fun i =>
        (keywords.map (fun k => (k, "*"))).all (fun p =>
          decide (i ∈ matchSet
            ((dictGet (use_info_of env c keywords) p.1).getD [])
            p.2)))) := by
    rw [hz]
    refine findLoop_ok _ _ _ (fun p hp => ?_)
    rw [hcols' p hp]
    exact Option.isSome_some
  rw [find_star_ok env c keywords _ hfl]
  rw [← range_filter_map_getD c.files (fun f =>
    keywords.all (fun k => decide (fileVal env f k ≠ "")))]
  congr 1
  congr 1
  apply List.filter_congr
  intro i hi
  rw [List.mem_range] at hi
  rw [all_map']
  apply all_congr'
  intro k hk
  rw [matchSet_decide_eq_pairMatch env _ c.files (k, "*") i hi (hcols k hk)]
  simp [pairMatch]

theorem values_err (c : ImageFileCollection) (k : String) (u : Bool)
    (hhk : has_key c k = false) :
    values c k u =
      Except.error ("keyword " ++ k ++ " is not in the current summary") := by
  simp [values, hhk]

theorem values_ok (c : ImageFileCollection) (k : String) (u : Bool)
    (col : List String) (hhk : has_key c k = true)
    (hcol : dictGet c.summary_info k = some col) :
    values c k u = Except.ok (if u then distinctVals col else col) := by
  unfold values
  simp only [hhk, hcol, not_true, if_false]

theorem find_run_state (env : Env) (c : ImageFileCollection)
    (keywords : List String) (vargs : ValuesArg) :
    (find_keywords_by_values_run env c keywords vargs).2 = c := by
  unfold find_keywords_by_values_run
  cases vargs with
  | star =>
    cases hfl : findLoop (use_info_of env c keywords)
        (keywords.zip (List.replicate keywords.length "*"))
        (List.range c.files.length) <;> simp [hfl]
  | vals vs =>
    cases hfl : findLoop (use_info_of env c keywords) (keywords.zip vs)
        (List.range c.files.length) <;> simp [hfl]

theorem mkCollection_summary_get_none (env : Env) (K : List String)
    (k : String) (hk : k ∉ K) (hkf : k ≠ "file") :
    dictGet (mkCollection env K).summary_info k = none := by
  by_cases hne : K = []
  · subst hne
    simp [mkCollection, dictGet]
  · rw [mkCollection_summary env K hne]
    exact fits_summary_get_none env env.files K k hk hkf

theorem has_key_mkCollection_false (env : Env) (K : List String)
    (k : String) (hk : k ∉ K) :
    has_key (mkCollection env K) k = false := by
  unfold has_key
  rw [mkCollection_keywords]
  rw [List.any_eq_false]
  intro x hx
  simp only [decide_eq_true_eq]
  exact fun e => hk (e ▸ hx)

theorem has_key_mkCollection_true (env : Env) (K : List String)
    (k : String) (hk : k ∈ K) :
    has_key (mkCollection env K) k = true := by
  unfold has_key
  rw [mkCollection_keywords]
  rw [List.any_eq_true]
  exact ⟨k, hk, by simp⟩

/-- C1: evaluation of the claim at a collection tracking only `KWA` and a
query for `KWA` and `KWB`: the code takes the cached branch because the
intersection with the tracked keywords is non-empty (not because all
requested keywords are tracked) and then fails with a `KeyError` for `KWB`,
while a re-scan for exactly the requested keywords would have matched
`a.fits`; `KWB` is indeed not tracked. -/
theorem C1_partial_overlap_keyerror :
    files_with_key_values env1 c1 ["KWA", "KWB"] ["1", "2"] =
        Except.error "KeyError: KWB" ∧
      ("KWB" ∉ c1.keywords) ∧
      matchingFilesSpec (fits_summary env1 c1.files ["KWA", "KWB"])
        [("KWA", "1"), ("KWB", "2")] = ["a.fits"] :=
  ⟨by rfl, by decide, by rfl⟩

/-- C2 counterexample: with `a.fits` unreadable and `b.fits` the only file
whose `KWB` equals `x`, the query returns `a.fits` — the surviving row index
is resolved against `self._files` instead of the scanned table's own file
column, whose only matching row is `b.fits`. -/
theorem C2_counterexample :
    files_with_key_values env2 c2 ["KWB"] ["x"] = Except.ok ["a.fits"] ∧
      matchingFilesSpec (fits_summary env2 c2.files ["KWB"]) [("KWB", "x")]
        = ["b.fits"] ∧
      ("a.fits" : String) ∉ (["b.fits"] : List String) :=
  ⟨by rfl, by rfl, by decide⟩

/-- C2 (amended): the final index set is always mapped through the
construction-time file list; when every listed file's header is readable and
the requested keywords are all tracked or all untracked, that list coincides
with the file column of the table used, and the result is exactly the files
whose row in that table matched every pair. -/
theorem C2_amended (env : Env) (K ks uvs : List String) (hndK : K.Nodup)
    (hfK : "file" ∉ K) (hndk : ks.Nodup) (hfk : "file" ∉ ks)
    (hlen : ks.length = uvs.length)
    (hr : ∀ f ∈ env.files, (env.reader f).isSome)
    (hsub : (∀ k ∈ ks, k ∈ K) ∨ (∀ k ∈ ks, k ∉ K)) :
    files_with_key_values env (mkCollection env K) ks uvs =
      Except.ok (matchingFilesSpec
        (use_info_of env (mkCollection env K) ks) (ks.zip uvs)) := by
  have hcols : ∀ k ∈ ks,
      dictGet (use_info_of env (mkCollection env K) ks) k =
        some (env.files.map (fun f => fileVal env f k)) :=
    hcols_of env K ks hndK hfK hndk hfk hr hsub
  have hcolsp : ∀ p ∈ ks.zip uvs,
      dictGet (use_info_of env (mkCollection env K) ks) p.1 =
        some ((mkCollection env K).files.map (fun f => fileVal env f p.1)) := by
    intro p hp
    obtain ⟨pk, pv⟩ := p
    exact hcols pk (List.of_mem_zip hp).1
  have hfile : dictGet (use_info_of env (mkCollection env K) ks) "file" =
      some env.files := by
    cases hb : ks.any (fun k => decide (k ∈ K)) with
    | true =>
      rw [use_info_cached env K ks hb]
      exact fits_summary_get_file env K hfK hr
    | false =>
      rw [use_info_rescan env K ks hb]
      exact fits_summary_get_file env ks hfk hr
  unfold files_with_key_values
  rw [if_neg (fun hne => hne hlen)]
  rw [find_eval env (mkCollection env K) ks uvs hcolsp]
  unfold matchingFilesSpec
  rw [hfile]
  simp only [Option.getD_some]
  rw [mkCollection_files]
  rw [← range_filter_map_getD env.files
    (fun f => (ks.zip uvs).all (fun p => pairMatch env f p))]
  congr 2
  apply List.filter_congr
  intro i hi
  rw [List.mem_range] at hi
  exact (rowMatches_eq_pairMatch env _ env.files (ks.zip uvs) i hi
    (fun p hp => by
      obtain ⟨pk, pv⟩ := p
      exact hcols pk (List.of_mem_zip hp).1)).symm

/-- Witness for C2 (amended): one readable file, one tracked keyword. -/
theorem C2_amended_witness :
    ((["KWA"] : List String).Nodup ∧ "file" ∉ (["KWA"] : List String) ∧
      (["KWA"] : List String).length = (["1"] : List String).length ∧
      (∀ f ∈ env1.files, (env1.reader f).isSome) ∧
      (∀ k ∈ (["KWA"] : List String), k ∈ (["KWA"] : List String))) ∧
      files_with_key_values env1 (mkCollection env1 ["KWA"]) ["KWA"] ["1"] =
        Except.ok (matchingFilesSpec
          (use_info_of env1 (mkCollection env1 ["KWA"]) ["KWA"])
          (["KWA"].zip ["1"])) :=
  ⟨⟨by decide, by decide, by decide, by decide, by decide⟩,
    C2_amended env1 ["KWA"] ["KWA"] ["1"] (by decide) (by decide) (by decide)
      (by decide) (by decide) (by decide) (Or.inl (by decide))⟩

/-- C3: evaluation of the claim at the keywords setter: after enlarging the
tracked keywords from `KWA` to `KWA, KWB`, the summary still has no `KWB`
column (it is left stale, not rebuilt), and `values` for the newly tracked
keyword fails with a `KeyError` instead of returning a column. -/
theorem C3_setter_leaves_summary_stale :
    (setKeywords (mkCollection env1 ["KWA"]) ["KWA", "KWB"]).keywords =
        ["KWA", "KWB"] ∧
      dictGet (setKeywords (mkCollection env1 ["KWA"])
        ["KWA", "KWB"]).summary_info "KWB" = none ∧
      values (setKeywords (mkCollection env1 ["KWA"]) ["KWA", "KWB"])
        "KWB" false = Except.error "KeyError: KWB" :=
  ⟨rfl, by rfl, by rfl⟩

/-- C4 counterexample: with `a.fits` unreadable, the collection tracking
`KWB` has a `KWB` column and a `file` column with a single entry although
two files are listed, so the column-alignment invariant fails. -/
theorem C4_counterexample :
    c2b.keywords = ["KWB"] ∧ c2b.files.length = 2 ∧
      dictGet c2b.summary_info "KWB" = some ["x"] ∧
      (["x"] : List String).length ≠ c2b.files.length ∧
      dictGet c2b.summary_info "file" = some ["b.fits"] ∧
      (["b.fits"] : List String) ≠ c2b.files :=
  ⟨rfl, rfl, by rfl, by decide, by rfl, by decide⟩

/-- C4 (amended): when every listed file's header is readable, every tracked
keyword's column lists exactly one value per file in file order, the `file`
column equals the file list, and a keyword absent from a file's header is
recorded as the empty string. -/
theorem C4_amended (env : Env) (K : List String) (k : String)
    (hk : k ∈ K) (hnd : K.Nodup) (hf : "file" ∉ K)
    (hr : ∀ f ∈ env.files, (env.reader f).isSome) :
    dictGet (mkCollection env K).summary_info "file" =
        some (mkCollection env K).files ∧
      dictGet (mkCollection env K).summary_info k =
        some ((mkCollection env K).files.map (fun f => fileVal env f k)) ∧
      (∀ col, dictGet (mkCollection env K).summary_info k = some col →
        col.length = (mkCollection env K).files.length) ∧
      (∀ f hh, env.reader f = some hh → dictGet hh k = none →
        fileVal env f k = "") := by
  have hne : K ≠ [] := by
    intro hnil
    subst hnil
    simp at hk
  rw [mkCollection_summary env K hne, mkCollection_files]
  refine ⟨fits_summary_get_file env K hf hr,
    fits_summary_get_col env K k hnd hf hk hr, ?_, ?_⟩
  · intro col hcol
    rw [fits_summary_get_col env K k hnd hf hk hr] at hcol
    injection hcol with hcol
    rw [← hcol, List.length_map]
  · intro f hh hrf hdg
    simp [fileVal, hrf, headerVal, hdg]

/-- Witness for C4 (amended) at a one-file collection; the header of
`a.fits` has no `KWC`, so a `KWC` column would record the empty string. -/
theorem C4_amended_witness :
    (("KWA" ∈ (["KWA"] : List String)) ∧ (["KWA"] : List String).Nodup ∧
      "file" ∉ (["KWA"] : List String) ∧
      (∀ f ∈ env1.files, (env1.reader f).isSome)) ∧
      (dictGet (mkCollection env1 ["KWA"]).summary_info "file" =
          some (mkCollection env1 ["KWA"]).files ∧
        dictGet (mkCollection env1 ["KWA"]).summary_info "KWA" =
          some ((mkCollection env1 ["KWA"]).files.map
            (fun f => fileVal env1 f "KWA")) ∧
        (∀ col, dictGet (mkCollection env1 ["KWA"]).summary_info "KWA" =
          some col → col.length = (mkCollection env1 ["KWA"]).files.length) ∧
        (∀ f hh, env1.reader f = some hh → dictGet hh "KWA" = none →
          fileVal env1 f "KWA" = "")) :=
  ⟨⟨by decide, by decide, by decide, by decide⟩,
    C4_amended env1 ["KWA"] "KWA" (by decide) (by decide) (by decide)
      (by decide)⟩

/-- C6 counterexample: `a.fits` has non-empty values for both `KWA` and
`KWB`, but `files_with_keys(["KWA","KWB"])` on a collection tracking only
`KWA` raises a `KeyError` instead of returning the file. -/
theorem C6_counterexample :
    files_with_keys env1 c1 ["KWA", "KWB"] = Except.error "KeyError: KWB" ∧
      fileVal env1 "a.fits" "KWA" ≠ "" ∧
      fileVal env1 "a.fits" "KWB" ≠ "" :=
  ⟨by rfl, by decide, by decide⟩

/-- C6 (amended): when every listed file's header is readable and the used
keywords (the argument, or the tracked keywords when it is empty) are all
tracked or all untracked, `files_with_keys` returns exactly the files whose
every used keyword has a non-empty value. -/
theorem C6_amended (env : Env) (K ks : List String) (hndK : K.Nodup)
    (hfK : "file" ∉ K)
    (hndk : (if ks = [] then K else ks).Nodup)
    (hfk : "file" ∉ (if ks = [] then K else ks))
    (hr : ∀ f ∈ env.files, (env.reader f).isSome)
    (hsub : (∀ k ∈ (if ks = [] then K else ks), k ∈ K) ∨
      (∀ k ∈ (if ks = [] then K else ks), k ∉ K)) :
    files_with_keys env (mkCollection env K) ks =
      Except.ok (env.files.filter (fun f =>
        (if ks = [] then K else ks).all
          (fun k => decide (fileVal env f k ≠ "")))) := by
  have hcols := hcols_of env K (if ks = [] then K else ks) hndK hfK hndk
    hfk hr hsub
  simp only [files_with_keys, mkCollection_keywords]
  rw [find_eval_star env (mkCollection env K) (if ks = [] then K else ks)
    hcols]
  rw [mkCollection_files]

/-- Witness for C6 (amended): the tracked keyword `KWA` of `a.fits` has a
non-empty value, so the file is returned. -/
theorem C6_amended_witness :
    ((["KWA"] : List String).Nodup ∧
      (if (["KWA"] : List String) = [] then ["KWA"] else ["KWA"]).Nodup ∧
      "file" ∉ (if (["KWA"] : List String) = [] then ["KWA"] else ["KWA"]) ∧
      (∀ f ∈ env1.files, (env1.reader f).isSome)) ∧
      files_with_keys env1 (mkCollection env1 ["KWA"]) ["KWA"] =
        Except.ok (env1.files.filter (fun f =>
          (if (["KWA"] : List String) = [] then ["KWA"] else ["KWA"]).all
            (fun k => decide (fileVal env1 f k ≠ "")))) :=
  ⟨⟨by decide, by decide, by decide, by decide⟩,
    C6_amended env1 ["KWA"] ["KWA"] (by decide) (by decide) (by decide)
      (by decide) (by decide) (Or.inl (by decide))⟩

/-- C8: `values(keyword, unique)` fails with the "not tracked" error exactly
when the keyword is not among the tracked keywords of a freshly constructed
collection; when it is tracked, it returns the cached column (the header
value of each listed file, in file order), and with `unique` set the
distinct values of that column. -/
theorem C8_values (env : Env) (K : List String) (k : String) (u : Bool)
    (hnd : K.Nodup) (hf : "file" ∉ K)
    (hr : ∀ f ∈ env.files, (env.reader f).isSome) :
    (k ∉ K → values (mkCollection env K) k u =
        Except.error ("keyword " ++ k ++ " is not in the current summary")) ∧
      (k ∈ K →
        values (mkCollection env K) k false =
            Except.ok ((mkCollection env K).files.map
              (fun f => fileVal env f k)) ∧
          values (mkCollection env K) k true =
            Except.ok (distinctVals ((mkCollection env K).files.map
              (fun f => fileVal env f k))) ∧
          (distinctVals ((mkCollection env K).files.map
            (fun f => fileVal env f k))).Nodup ∧
          (∀ v, v ∈ distinctVals ((mkCollection env K).files.map
            (fun f => fileVal env f k)) ↔
            v ∈ (mkCollection env K).files.map (fun f => fileVal env f k))) := by
  constructor
  · intro hk
    exact values_err _ k u (has_key_mkCollection_false env K k hk)
  · intro hk
    have hne : K ≠ [] := by
      intro hnil
      subst hnil
      simp at hk
    have hsum : dictGet (mkCollection env K).summary_info k =
        some ((mkCollection env K).files.map (fun f => fileVal env f k)) := by
      rw [mkCollection_summary env K hne, mkCollection_files]
      exact fits_summary_get_col env K k hnd hf hk hr
    refine ⟨?_, ?_, by simp only [distinctVals] ; exact
        List.nodup_dedup ((mkCollection env K).files.map
          (fun f => fileVal env f k)),
      fun v => by simp [distinctVals, List.mem_dedup]⟩
    · rw [values_ok _ k false _ (has_key_mkCollection_true env K k hk) hsum]
      simp
    · rw [values_ok _ k true _ (has_key_mkCollection_true env K k hk) hsum]
      simp

/-- Witness for C8: the tracked keyword `KWA` succeeds with its cached
column, on the one-file collection. -/
theorem C8_values_witness :
    ((["KWA"] : List String).Nodup ∧ "file" ∉ (["KWA"] : List String) ∧
      (∀ f ∈ env1.files, (env1.reader f).isSome) ∧
      "KWA" ∈ (["KWA"] : List String)) ∧
      values (mkCollection env1 ["KWA"]) "KWA" false =
        Except.ok ((mkCollection env1 ["KWA"]).files.map
          (fun f => fileVal env1 f "KWA")) :=
  ⟨⟨by decide, by decide, by decide, by decide⟩,
    ((C8_values env1 ["KWA"] "KWA" false (by decide) (by decide)
      (by decide)).2 (by decide)).1⟩

/-- C9: a query for an untracked keyword leaves the collection state (its
summary table and tracked keywords) unchanged — the freshly scanned table is
discarded — so a subsequent `values` call for that keyword still fails with
the "not tracked" error, and the summary still has no column for it. -/
theorem C9_frame (env : Env) (K : List String) (k v : String) (u : Bool)
    (hk : k ∉ K) (hkf : k ≠ "file") :
    (find_keywords_by_values_run env (mkCollection env K) [k]
        (ValuesArg.vals [v])).2 = mkCollection env K ∧
      values (find_keywords_by_values_run env (mkCollection env K) [k]
          (ValuesArg.vals [v])).2 k u =
        Except.error ("keyword " ++ k ++ " is not in the current summary") ∧
      dictGet (find_keywords_by_values_run env (mkCollection env K) [k]
          (ValuesArg.vals [v])).2.summary_info k = none := by
  have hstate := find_run_state env (mkCollection env K) [k]
    (ValuesArg.vals [v])
  refine ⟨hstate, ?_, ?_⟩
  · rw [hstate]
    exact values_err _ k u (has_key_mkCollection_false env K k hk)
  · rw [hstate]
    exact mkCollection_summary_get_none env K k hk hkf

/-- Witness for C9: querying the untracked `KWB` on the collection tracking
only `KWA`. -/
theorem C9_frame_witness :
    (("KWB" ∉ (["KWA"] : List String)) ∧ "KWB" ≠ "file") ∧
      ((find_keywords_by_values_run env1 (mkCollection env1 ["KWA"]) ["KWB"]
          (ValuesArg.vals ["2"])).2 = mkCollection env1 ["KWA"] ∧
        values (find_keywords_by_values_run env1 (mkCollection env1 ["KWA"])
            ["KWB"] (ValuesArg.vals ["2"])).2 "KWB" false =
          Except.error ("keyword " ++ "KWB" ++ " is not in the current summary") ∧
        dictGet (find_keywords_by_values_run env1 (mkCollection env1 ["KWA"])
            ["KWB"] (ValuesArg.vals ["2"])).2.summary_info "KWB" = none) :=
  ⟨⟨by decide, by decide⟩,
    C9_frame env1 ["KWA"] "KWB" "2" false (by decide) (by decide)⟩
